import Mathlib

/-!
Verification of the Datenschutz security-scanner core against its design
specification.

The development shallowly embeds the TypeScript sources:

* `SecurityScanner` (scanner: `addLineNumbers`, `chunkByLines`,
  `analyzeWithRules`, `analyzeWithLLM`, `parseLLMResponse`) and
* `FixProvider` (`applyFix`, `createBackup`, `getAvailableFixes`)

JavaScript strings are modelled as `List Char`; dynamic JavaScript values
(JSON data, optional fields) are modelled by the `JVal` type, which includes
an `undefinedV` constructor for JavaScript `undefined`.  Fallible filesystem
operations are modelled by an explicit environment recording which paths
fail to write.  All definitions are executable so that concrete runs can be
checked by `decide`.
-/

set_option maxRecDepth 4000

namespace Datenschutz

/-- JavaScript strings, modelled as lists of characters. -/
abbrev JStr := List Char

/-- Conversion from Lean string literals to `JStr` (used only to write
concrete inputs and the string constants of the source). -/
def jchars (s : String) : JStr := s.data

/-- Number of newline characters in a string (`'\n'` occurrences). -/
def countNl (s : JStr) : Nat := s.countP (fun c => c == '\n')

/-- JavaScript `s.split(sep)` for a single-character separator: splits at
every occurrence; always returns at least one (possibly empty) part. -/
def splitOnChar (sep : Char) : JStr → List JStr
  | [] => [[]]
  | c :: rest =>
    let tail := splitOnChar sep rest
    if c = sep then
      [] :: tail
    else
      match tail with
      | h :: t => (c :: h) :: t
      | [] => [[c]]

/-- JavaScript `s.split('\n')`. -/
def splitNl : JStr → List JStr := splitOnChar '\n'

/-- JavaScript `parts.join(sep)` for a single-character separator. -/
def joinWith (sep : Char) (parts : List JStr) : JStr :=
  match parts with
  | [] => []
  | p :: rest => rest.foldl (fun acc q => acc ++ sep :: q) p

/-- JavaScript `parts.join('\n')`. -/
def joinNl (parts : List JStr) : JStr := joinWith '\n' parts

/-- Dynamic JavaScript/JSON values.  `undefinedV` models JavaScript
`undefined` (absent property); it is never produced by the JSON parser,
only by property access on objects lacking the key. -/
inductive JVal where
  | undefinedV : JVal
  | null : JVal
  | bool : Bool → JVal
  | num : Int → JVal
  | str : JStr → JVal
  | arr : List JVal → JVal
  | obj : List (JStr × JVal) → JVal

/-- JavaScript truthiness of a `JVal`: `undefined`, `null`, `false`, `0`
and the empty string are falsy; objects and arrays are always truthy. -/
def truthy : JVal → Bool
  | .undefinedV => false
  | .null => false
  | .bool b => b
  | .num n => n != 0
  | .str s => !s.isEmpty
  | .arr _ => true
  | .obj _ => true

/-- JavaScript property access `v[key]` on a dynamic value: objects look the
key up (first binding wins), every other non-nullish value yields
`undefined`.  Access on `null`/`undefined` throws in JavaScript; all call
sites below guard against it, so the total model returns `undefinedV` there. -/
def jget (v : JVal) (key : JStr) : JVal :=
  match v with
  | .obj fields =>
    match fields.find? (fun kv => kv.1 = key) with
    | some kv => kv.2
    | none => .undefinedV
  | _ => .undefinedV

/-- JavaScript `a || b`. -/
def jor (a b : JVal) : JVal := if truthy a then a else b

/-- JavaScript `String(v)` coercion, for the value shapes that occur here. -/
def jvalToStr : JVal → JStr
  | .undefinedV => jchars "undefined"
  | .null => jchars "null"
  | .bool b => if b then jchars "true" else jchars "false"
  | .num n => (toString n).data
  | .str s => s
  | .arr _ => []
  | .obj _ => jchars "[object Object]"

/-- The `SecurityIssue` record of `scanner.ts`, restricted to the fields the
scanner and fix paths actually populate (`id`, `column`, `cwe_id`,
`owasp_category`, `risk_score` and `compliance_impact` are never set by the
scanner or the LLM-response normalizer and are omitted).  Fields are `JVal`
because issues parsed from model output are dynamic values. -/
structure Issue where
  title : JVal
  description : JVal
  severity : JVal
  file_path : JVal
  line : JVal
  suggestion : JVal
  fix : JVal
  vulnerability_type : JVal

/-- Projection: the string payload of a `JVal`, if it is a string.  Used to
state concrete, decidable facts about computed issues without needing
decidable equality on the nested `JVal` type. -/
def strVal : JVal → Option JStr
  | .str s => some s
  | _ => none

/-- Projection: the integer payload of a `JVal`, if it is a number. -/
def intVal : JVal → Option Int
  | .num n => some n
  | _ => none

/-- Projection: is this value JSON `null`? -/
def isNullV : JVal → Bool
  | .null => true
  | _ => false

/-- Projection: is this value JavaScript `undefined`? -/
def isUndefV : JVal → Bool
  | .undefinedV => true
  | _ => false

/-! ## A small regular-expression engine

The rule catalogue of `analyzeWithRules` uses only: literal characters,
`.`, `\s`, character classes, the quantifiers `*`, `+`, `{n}` applied to a
single item, and the `i` flag.  No groups, alternation or anchors occur, so
a JavaScript-faithful backtracking matcher only needs greedy single-item
quantifiers. -/

/-- An atomic regex item: `.` (which does not match newline), `\s`, or a
character class given by inclusive ranges (negated when the flag is set).
A literal character is the singleton class. -/
inductive RItem where
  | anyc : RItem
  | ws : RItem
  | cls : Bool → List (Char × Char) → RItem

/-- A literal character item. -/
def rlit (c : Char) : RItem := .cls false [(c, c)]

/-- A quantified piece of a pattern: one occurrence, greedy `*`, greedy
`+`, or an exact repetition `{n}`. -/
inductive RPiece where
  | once : RItem → RPiece
  | star : RItem → RPiece
  | plus : RItem → RPiece
  | rep : RItem → Nat → RPiece

/-- ASCII case swap, for the `i` flag. -/
def swapCase (c : Char) : Char :=
  if 'a' ≤ c && c ≤ 'z' then Char.ofNat (c.toNat - 32)
  else if 'A' ≤ c && c ≤ 'Z' then Char.ofNat (c.toNat + 32)
  else c

/-- Membership of a character in a list of inclusive ranges. -/
def inRanges (rs : List (Char × Char)) (c : Char) : Bool :=
  rs.any (fun r => decide (r.1 ≤ c) && decide (c ≤ r.2))

/-- Does item `x` match character `c` (`ci` = case-insensitive)?  `\s` is
modelled by its ASCII members (space, tab, newline, vertical tab, form
feed, carriage return). -/
def itemM (ci : Bool) (x : RItem) (c : Char) : Bool :=
  match x with
  | .anyc => c != '\n'
  | .ws => c == ' ' || c == '\t' || c == '\n' || c == '\x0b' || c == '\x0c' || c == '\r'
  | .cls neg rs =>
    let hit := inRanges rs c || (ci && inRanges rs (swapCase c))
    if neg then !hit else hit

/-- Length of the maximal prefix of `s` whose characters all match `x`. -/
def maxRun (ci : Bool) (x : RItem) : JStr → Nat
  | [] => 0
  | c :: s => if itemM ci x c then maxRun ci x s + 1 else 0

/-- Greedy backtracking for a single-item quantifier: try consuming `k`
items, then `k-1`, …, then `0`, continuing with `cont` on the rest; the
result counts the total number of characters consumed. -/
def tryStar (cont : JStr → Option Nat) (s : JStr) : Nat → Option Nat
  | 0 => cont s
  | k + 1 =>
    match (cont (s.drop (k + 1))).map (· + (k + 1)) with
    | some m => some m
    | none => tryStar cont s k

/-- Can `{n}` consume exactly `n` matching characters here? -/
def repOk (ci : Bool) (x : RItem) (n : Nat) (s : JStr) : Bool :=
  decide (n ≤ s.length) && (s.take n).all (itemM ci x)

/-- Backtracking matcher: does the piece list match a prefix of `s`, and if
so how many characters does it consume?  Greedy quantifiers with
backtracking reproduce the JavaScript preference order (longest first). -/
def matchPieces (ci : Bool) : List RPiece → JStr → Option Nat
  | [], _ => some 0
  | .once x :: ps, s =>
    match s with
    | [] => none
    | c :: s' => if itemM ci x c then (matchPieces ci ps s').map (· + 1) else none
  | .star x :: ps, s => tryStar (fun t => matchPieces ci ps t) s (maxRun ci x s)
  | .plus x :: ps, s =>
    match s with
    | [] => none
    | c :: s' =>
      if itemM ci x c then
        (tryStar (fun t => matchPieces ci ps t) s' (maxRun ci x s')).map (· + 1)
      else none
  | .rep x n :: ps, s =>
    if repOk ci x n s then (matchPieces ci ps (s.drop n)).map (· + n) else none

/-- Scan for the leftmost match at or after `pos`; `t` is the suffix of the
subject starting at `pos`.  Returns the match start and end offsets
(`RegExp.prototype.exec` on a pattern without anchors). -/
def scanFor (ci : Bool) (ps : List RPiece) : JStr → Nat → Option (Nat × Nat)
  | t, pos =>
    match matchPieces ci ps t with
    | some n => some (pos, pos + n)
    | none =>
      match t with
      | [] => none
      | _ :: t' => scanFor ci ps t' (pos + 1)

/-- The `while ((match = pattern.exec(content)) !== null)` loop of the
source for a `/g` pattern: collect successive match start indices, resuming
each search at `lastIndex` (the previous match end).  None of the source's
patterns can match the empty string, so advancing by `max en (st + 1)` with
fuel `s.length + 1` reproduces the JavaScript loop exactly on them. -/
def execAllFrom (ci : Bool) (ps : List RPiece) (s : JStr) : Nat → Nat → List Nat
  | 0, _ => []
  | fuel + 1, i =>
    match scanFor ci ps (s.drop i) i with
    | none => []
    | some (st, en) => st :: execAllFrom ci ps s fuel (max en (st + 1))

/-- All match start indices of a `/g` pattern in `s`, in order. -/
def execAll (ci : Bool) (ps : List RPiece) (s : JStr) : List Nat :=
  execAllFrom ci ps s (s.length + 1) 0

/-! ## The rule catalogue of `SecurityScanner.analyzeWithRules` -/

/-- The double-quote character (written by code to satisfy quoting). -/
def qD : Char := Char.ofNat 34

/-- The single-quote character. -/
def qS : Char := Char.ofNat 39

/-- Left curly brace. -/
def braceL : Char := Char.ofNat 123

/-- Right curly brace. -/
def braceR : Char := Char.ofNat 125

/-- A run of literal characters in a pattern. -/
def rstr (s : String) : List RPiece := s.data.map (fun c => .once (rlit c))

/-- The `.*` -/
def dotStar : RPiece := .star .anyc

/-- The class `["']`. -/
def quoteCls : RPiece := .once (.cls false [(qD, qD), (qS, qS)])

/-- The class-plus `[^"']+`. -/
def notQuotePlus : RPiece := .plus (.cls true [(qD, qD), (qS, qS)])

/-- The `\s*` -/
def wsStar : RPiece := .star .ws

/-- The `f["']WORD.*\{.*\}.*WORD2` — the f-string SQL patterns. -/
def sqlFPat (w1 w2 : String) : List RPiece :=
  [.once (rlit 'f'), quoteCls] ++ rstr w1 ++
    [dotStar, .once (rlit braceL), dotStar, .once (rlit braceR), dotStar] ++ rstr w2

/-- The `PREFIX.*f["'].*\{.*\}` — the execute-call SQL patterns. -/
def sqlExecPat (callee : String) : List RPiece :=
  rstr callee ++
    [dotStar, .once (rlit 'f'), quoteCls, dotStar, .once (rlit braceL), dotStar,
      .once (rlit braceR)]

/-- The `NAME\s*=\s*["'][^"']+["']` — the secret-assignment patterns. -/
def secretPat (name : String) : List RPiece :=
  rstr name ++ [wsStar, .once (rlit '='), wsStar, quoteCls, notQuotePlus, quoteCls]

/-- The `CALL(.*\+.*\+` — the command-injection patterns (the literal run
includes the escaped `\.` and `\(` of the source regexes). -/
def cmdPat (callee : String) : List RPiece :=
  rstr callee ++ [dotStar, .once (rlit '+'), dotStar, .once (rlit '+')]

/-- The class `[a-zA-Z0-9]`. -/
def alnumCls : RItem := .cls false [('a', 'z'), ('A', 'Z'), ('0', '9')]

/-- The class `[0-9A-Z]`. -/
def upAlnumCls : RItem := .cls false [('0', '9'), ('A', 'Z')]

/-- The `patterns` table of `analyzeWithRules`, in `Object.entries` order:
each vulnerability type with its list of patterns; the `Bool` is the
case-insensitivity (`i`) flag of the source regex. -/
def ruleTable : List (JStr × List (Bool × List RPiece)) :=
  [ (jchars "sql_injection",
      [ (true, sqlFPat "SELECT" "FROM"),
        (true, sqlFPat "INSERT" "INTO"),
        (true, sqlFPat "UPDATE" "SET"),
        (true, sqlFPat "DELETE" "FROM"),
        (true, sqlExecPat "execute"),
        (true, sqlExecPat "cursor.execute") ]),
    (jchars "hardcoded_secrets",
      [ (true, secretPat "password"),
        (true, secretPat "api_key"),
        (true, secretPat "secret"),
        (true, secretPat "token"),
        (false, rstr "sk-" ++ [.rep alnumCls 48]),
        (false, rstr "AKIA" ++ [.rep upAlnumCls 16]) ]),
    (jchars "command_injection",
      [ (true, cmdPat "os.system("),
        (true, cmdPat "subprocess.run("),
        (true, cmdPat "eval("),
        (true, cmdPat "exec(") ]),
    (jchars "weak_crypto",
      [ (true, rstr "hashlib.md5("),
        (true, rstr "hashlib.sha1("),
        (true, rstr "random.random()") ]),
    (jchars "xss",
      [ (true, rstr "innerHTML" ++ [wsStar, .once (rlit '='), wsStar, dotStar,
          .once (rlit '+'), dotStar]),
        (true, rstr "document.write(" ++ [dotStar, .once (rlit '+'), dotStar,
          .once (rlit ')')]) ]) ]

/-- Lookup in a string-keyed table with a default (the
`map[key] || default` idiom of the source). -/
def lookupD (m : List (JStr × JStr)) (k d : JStr) : JStr :=
  match m.find? (fun kv => kv.1 == k) with
  | some kv => kv.2
  | none => d

/-- JavaScript `s.replace(pat, rep)` with a plain-string pattern: replace
the first occurrence only (`$`-substitution in the replacement is not
modelled; no replacement text used here contains `$`). -/
def replaceFirst : JStr → JStr → JStr → JStr
  | s, pat, rep =>
    if pat.isPrefixOf s then rep ++ s.drop pat.length
    else
      match s with
      | [] => []
      | c :: s' => c :: replaceFirst s' pat rep

/-- The `severityMap` of `analyzeWithRules` (defaulting to `medium`). -/
def severityOf (vt : JStr) : JStr :=
  lookupD
    [ (jchars "sql_injection", jchars "high"),
      (jchars "hardcoded_secrets", jchars "critical"),
      (jchars "command_injection", jchars "critical"),
      (jchars "weak_crypto", jchars "high"),
      (jchars "xss", jchars "medium") ]
    vt (jchars "medium")

/-- The `getVulnerabilityTitle`. -/
def vulnTitle (vt : JStr) : JStr :=
  lookupD
    [ (jchars "sql_injection", jchars "SQL Injection Vulnerability"),
      (jchars "hardcoded_secrets", jchars "Hardcoded Secret Detected"),
      (jchars "command_injection", jchars "Command Injection Vulnerability"),
      (jchars "weak_crypto", jchars "Weak Cryptographic Algorithm"),
      (jchars "xss", jchars "Cross-Site Scripting (XSS) Vulnerability") ]
    vt (replaceFirst vt (jchars "_") (jchars " ") ++ jchars " Vulnerability")

/-- The `getVulnerabilityDescription`: every template ends with the matched
line's content. -/
def vulnDescription (vt lineContent : JStr) : JStr :=
  lookupD
    [ (jchars "sql_injection",
        jchars "Direct SQL query construction with user input detected: "),
      (jchars "hardcoded_secrets", jchars "Hardcoded secret found in code: "),
      (jchars "command_injection",
        jchars "Command execution with user input detected: "),
      (jchars "weak_crypto", jchars "Weak cryptographic algorithm usage: "),
      (jchars "xss", jchars "Potential XSS vulnerability: ") ]
    vt (jchars "Security vulnerability detected: ") ++ lineContent

/-- The `getVulnerabilitySuggestion`. -/
def vulnSuggestion (vt : JStr) : JStr :=
  lookupD
    [ (jchars "sql_injection",
        jchars "Use parameterized queries or ORM to prevent SQL injection"),
      (jchars "hardcoded_secrets",
        jchars "Use environment variables or secure secret management"),
      (jchars "command_injection",
        jchars "Avoid command execution with user input, use safer alternatives"),
      (jchars "weak_crypto",
        jchars "Use strong cryptographic algorithms (SHA-256, AES-256)"),
      (jchars "xss", jchars "Sanitize user input and use proper output encoding") ]
    vt (jchars "Review and fix the security vulnerability")

/-- The `SecurityScanner.analyzeWithRules`: run every pattern of every
vulnerability type over the chunk `content`; each match at index `idx`
yields an issue whose `line` is the number of newlines preceding the match
offset plus one (`content.substring(0, match.index).split('\n').length`),
with the category's title, description, severity and suggestion.  Rule
issues never set `fix` (it stays `undefined`). -/
def analyzeWithRules (filePath content : JStr) : List Issue :=
  let lines := splitNl content
  ruleTable.flatMap (fun vp =>
    vp.2.flatMap (fun pat =>
      (execAll pat.1 pat.2 content).map (fun idx =>
        let lineNum := countNl (content.take idx) + 1
        let lineContent := lines.getD (lineNum - 1) []
        { title := .str (vulnTitle vp.1),
          description := .str (vulnDescription vp.1 lineContent),
          severity := .str (severityOf vp.1),
          file_path := .str filePath,
          line := .num (lineNum : Int),
          suggestion := .str (vulnSuggestion vp.1),
          fix := .undefinedV,
          vulnerability_type := .str vp.1 })))

/-! ## `addLineNumbers` and `chunkByLines` -/

/-- The `padStart(5, '0')` applied to the decimal representation. -/
def pad5 (n : Nat) : JStr :=
  let s := (toString n).data
  List.replicate (5 - s.length) '0' ++ s

/-- The `SecurityScanner.addLineNumbers`: prefix every line (1-based) with its
zero-padded number and `": "`. -/
def addLineNumbers (text : JStr) : JStr :=
  joinNl ((splitNl text).enum.map (fun p => pad5 (p.1 + 1) ++ ':' :: ' ' :: p.2))

/-- The `while (start < n)` loop of `chunkByLines`, with explicit fuel:
`none` models non-termination of the JavaScript loop (which happens when
`overlapLines ≥ maxLines`).  Each iteration takes the window
`lines.slice(start, min(start+maxLines, n))`, emits it joined by newlines,
stops if the window reached the end, and otherwise restarts at
`max(0, end - overlapLines)` (natural subtraction). -/
def chunkLoop (lines : List JStr) (maxLines overlapLines : Nat) :
    Nat → Nat → Option (List JStr)
  | 0, start => if lines.length ≤ start then some [] else none
  | fuel + 1, start =>
    if lines.length ≤ start then some []
    else
      let e := min (start + maxLines) lines.length
      let chunk := joinNl ((lines.drop start).take (e - start))
      if e = lines.length then some [chunk]
      else (chunkLoop lines maxLines overlapLines fuel (e - overlapLines)).map (chunk :: ·)

/-- The `SecurityScanner.chunkByLines`: split the numbered text into lines and
run the windowing loop.  Fuel `lines.length` suffices whenever
`overlapLines < maxLines` (proved below). -/
def chunkByLines (numberedText : JStr) (maxLines overlapLines : Nat) :
    Option (List JStr) :=
  let lines := splitNl numberedText
  chunkLoop lines maxLines overlapLines lines.length 0

/-- The rule-engine part of `SecurityScanner.scanFile`: number the lines,
chunk with the configured `chunkMaxLines` and the hard-coded
`chunkOverlapLines = 40`, and run `analyzeWithRules` on every chunk,
concatenating the issues in chunk order. -/
def scanFileRuleIssues (filePath content : JStr) (chunkMaxLines : Nat) :
    Option (List Issue) :=
  (chunkByLines (addLineNumbers content) chunkMaxLines 40).map
    (fun chunks => chunks.flatMap (fun chunk => analyzeWithRules filePath chunk))

/-! ## JSON parsing and `parseLLMResponse`

`JSON.parse` is modelled by a recursive-descent parser over `JStr`.
Numbers are modelled as integers (optional minus sign and digits; no input
in this development uses fractions or exponents), and duplicate object keys
are not modelled (`JSON.parse` keeps the last, the model keeps the first;
no input here has duplicates). -/

/-- JSON whitespace. -/
def isJsonWs (c : Char) : Bool := c == ' ' || c == '\t' || c == '\n' || c == '\r'

/-- Skip leading JSON whitespace. -/
def skipWs : JStr → JStr
  | [] => []
  | c :: s => if isJsonWs c then skipWs s else c :: s

/-- Value of a hexadecimal digit. -/
def hexVal (c : Char) : Option Nat :=
  if '0' ≤ c && c ≤ '9' then some (c.toNat - 48)
  else if 'a' ≤ c && c ≤ 'f' then some (c.toNat - 87)
  else if 'A' ≤ c && c ≤ 'F' then some (c.toNat - 55)
  else none

/-- Parse the body of a JSON string after the opening quote, up to and
including the closing quote; handles the escape sequences. -/
def parseStrBody : JStr → Option (JStr × JStr)
  | [] => none
  | c :: s =>
    if c = qD then some ([], s)
    else if c = '\\' then
      match s with
      | [] => none
      | e :: s' =>
        if e = 'u' then
          match s' with
          | h1 :: h2 :: h3 :: h4 :: s'' =>
            match hexVal h1, hexVal h2, hexVal h3, hexVal h4 with
            | some a, some b, some x, some y =>
              (parseStrBody s'').map (fun r =>
                (Char.ofNat (((a * 16 + b) * 16 + x) * 16 + y) :: r.1, r.2))
            | _, _, _, _ => none
          | _ => none
        else
          let ec : Option Char :=
            if e = qD then some qD
            else if e = '\\' then some '\\'
            else if e = '/' then some '/'
            else if e = 'n' then some '\n'
            else if e = 't' then some '\t'
            else if e = 'r' then some '\r'
            else if e = 'b' then some '\x08'
            else if e = 'f' then some '\x0c'
            else none
          match ec with
          | some d => (parseStrBody s').map (fun r => (d :: r.1, r.2))
          | none => none
    else (parseStrBody s).map (fun r => (c :: r.1, r.2))

/-- Parse a run of decimal digits (at least one). -/
def parseDigits : JStr → Option (Nat × JStr)
  | [] => none
  | c :: s =>
    if c.isDigit then
      match parseDigits s with
      | some (n, rest) =>
        some ((c.toNat - 48) * 10 ^ ((s.length - rest.length)) + n, rest)
      | none => some (c.toNat - 48, c :: s |>.drop 1)
    else none

/-- Parse a JSON number (integer form). -/
def parseNum (s : JStr) : Option (Int × JStr) :=
  match s with
  | '-' :: s' => (parseDigits s').map (fun r => (-(r.1 : Int), r.2))
  | _ => (parseDigits s).map (fun r => ((r.1 : Int), r.2))

mutual

/-- Parse one JSON value (with fuel; the fuel `s.length + 1` used by
`jparse` always suffices because every recursive step consumes input). -/
def parseVal : Nat → JStr → Option (JVal × JStr)
  | 0, _ => none
  | fuel + 1, s0 =>
    let s := skipWs s0
    match s with
    | [] => none
    | c :: rest =>
      if c = qD then (parseStrBody rest).map (fun r => (.str r.1, r.2))
      else if c = braceL then
        match skipWs rest with
        | c2 :: rest2 =>
          if c2 = braceR then some (.obj [], rest2)
          else (parseObjFields fuel (c2 :: rest2)).map (fun r => (.obj r.1, r.2))
        | [] => none
      else if c = '[' then
        match skipWs rest with
        | ']' :: rest2 => some (.arr [], rest2)
        | s2 => (parseArrItems fuel s2).map (fun r => (.arr r.1, r.2))
      else if (jchars "true").isPrefixOf s then some (.bool true, s.drop 4)
      else if (jchars "false").isPrefixOf s then some (.bool false, s.drop 5)
      else if (jchars "null").isPrefixOf s then some (.null, s.drop 4)
      else (parseNum s).map (fun r => (.num r.1, r.2))

/-- Parse the comma-separated items of a JSON array, up to and including
the closing bracket. -/
def parseArrItems : Nat → JStr → Option (List JVal × JStr)
  | 0, _ => none
  | fuel + 1, s =>
    match parseVal fuel s with
    | none => none
    | some (v, s1) =>
      match skipWs s1 with
      | ',' :: s2 => (parseArrItems fuel s2).map (fun r => (v :: r.1, r.2))
      | ']' :: s2 => some ([v], s2)
      | _ => none

/-- Parse the comma-separated fields of a JSON object, up to and including
the closing brace. -/
def parseObjFields : Nat → JStr → Option (List (JStr × JVal) × JStr)
  | 0, _ => none
  | fuel + 1, s =>
    match skipWs s with
    | c :: rest =>
      if c = qD then
        match parseStrBody rest with
        | some (k, s1) =>
          match skipWs s1 with
          | ':' :: s2 =>
            match parseVal fuel s2 with
            | some (v, s3) =>
              match skipWs s3 with
              | ',' :: s4 =>
                (parseObjFields fuel s4).map (fun r => ((k, v) :: r.1, r.2))
              | c5 :: s4 =>
                if c5 = braceR then some ([(k, v)], s4) else none
              | [] => none
            | none => none
          | _ => none
        | none => none
      else none
    | [] => none

end

/-- The `JSON.parse`: parse one value and require only whitespace after it. -/
def jparse (s : JStr) : Option JVal :=
  match parseVal (s.length + 1) s with
  | some (v, rest) => if (skipWs rest).isEmpty then some v else none
  | none => none

/-- The regex `/\{[\s\S]*\}/` of `parseLLMResponse` (`[\s\S]` is the
negated empty class: any character, newline included). -/
def extractJsonRe : List RPiece :=
  [.once (rlit braceL), .star (.cls true []), .once (rlit braceR)]

/-- The `response.match(/\{[\s\S]*\}/)`: the first (leftmost, greedy) match —
from the first `{` that has a later `}` up to the last `}`. -/
def extractJson (s : JStr) : Option JStr :=
  match scanFor false extractJsonRe s 0 with
  | some (st, en) => some ((s.drop st).take (en - st))
  | none => none

/-- Normalization of one parsed issue object (the `issues.map` callback of
`parseLLMResponse`).  Property access on `null` throws in JavaScript, which
the enclosing `try` turns into an empty result for the whole chunk, so a
`null` element makes the whole map fail (`none`). -/
def normIssue (filePath : JStr) (v : JVal) : Option Issue :=
  if isNullV v || isUndefV v then none
  else
    some
      { title := jor (jget v (jchars "title")) (.str (jchars "Security Issue")),
        description := jor (jget v (jchars "description")) (.str []),
        severity := jor (jget v (jchars "severity")) (.str (jchars "medium")),
        file_path := .str filePath,
        line := jor (jget v (jchars "line")) .null,
        suggestion := jor (jget v (jchars "suggestion")) (.str []),
        fix := jor (jget v (jchars "fix")) .null,
        vulnerability_type := jget v (jchars "vulnerability_type") }

/-- Normalize a list of parsed issue objects; fails as a whole if any
element makes the JavaScript callback throw. -/
def normList (filePath : JStr) : List JVal → Option (List Issue)
  | [] => some []
  | v :: vs =>
    match normIssue filePath v, normList filePath vs with
    | some i, some l => some (i :: l)
    | _, _ => none

/-- The `SecurityScanner.parseLLMResponse`: extract the first `{...}` span,
`JSON.parse` it, read `data.issues || []`, and normalize each entry.  Every
failure (no JSON-looking span, unparseable JSON, a non-array `issues`
value, a `null` array element) is caught and yields the empty list. -/
def parseLLMResponse (response filePath : JStr) : List Issue :=
  match extractJson response with
  | none => []
  | some js =>
    match jparse js with
    | none => []
    | some data =>
      match jor (jget data (jchars "issues")) (.arr []) with
      | .arr xs => (normList filePath xs).getD []
      | _ => []

/-- The `SecurityScanner.analyzeWithLLM`: `none` models a throwing
`modelProvider.generate` call, whose failure is caught and yields no
issues; otherwise the response text is parsed. -/
def analyzeWithLLM (genResult : Option JStr) (filePath : JStr) : List Issue :=
  match genResult with
  | none => []
  | some response => parseLLMResponse response filePath

/-- The per-chunk aggregation loop of `SecurityScanner.scanFile` when the
model is available: for every chunk (paired with the model's response for
it), rule issues are pushed first, then the LLM issues. -/
def scanFileIssues (filePath : JStr) (chunks : List JStr)
    (responses : List (Option JStr)) : List Issue :=
  (chunks.zip responses).flatMap (fun cr =>
    analyzeWithRules filePath cr.1 ++ analyzeWithLLM cr.2 filePath)

/-! ## `FixProvider` -/

/-- The filesystem, as a map from paths to file contents.  Directories are
implicit (`mkdirSync` is a no-op in the model; its failure is caught by the
same handler as the write it precedes). -/
def FS := JStr → Option JStr

/-- Environment for the effectful parts of `FixProvider`: which paths fail
to write (a failing `writeFileSync` throws), the current ISO timestamp, the
current epoch milliseconds, and the rendering of a thrown error. -/
structure FsEnv where
  writeFails : JStr → Bool
  nowIso : JStr
  nowMs : Nat
  errText : JStr

/-- The `fs.writeFileSync`: `none` models a throw. -/
def fsWrite (env : FsEnv) (fs : FS) (p c : JStr) : Option FS :=
  if env.writeFails p then none
  else some (fun q => if q = p then some c else fs q)

/-- The `path.dirname` (simplified: no normalization; exact for the relative
paths used in this development). -/
def dirname (p : JStr) : JStr :=
  let parts := splitOnChar '/' p
  if parts.length ≤ 1 then jchars "." else joinWith '/' parts.dropLast

/-- The `path.basename` (same simplification). -/
def basename (p : JStr) : JStr := (splitOnChar '/' p).getLastD []

/-- The `path.join` of two segments. -/
def pathJoin (a b : JStr) : JStr := a ++ '/' :: b

/-- The `new Date().toISOString().replace(/[:.]/g, '-')`. -/
def sanitizeTs (s : JStr) : JStr :=
  s.map (fun c => if c = ':' || c = '.' then '-' else c)

/-- Decimal rendering of a natural number. -/
def natToJStr (n : Nat) : JStr := (toString n).data

/-- The backup directory `path.join(path.dirname(filePath), '.datenschutz_backups')`. -/
def backupDirOf (filePath : JStr) : JStr :=
  pathJoin (dirname filePath) (jchars ".datenschutz_backups")

/-- The backup path `path.join(backupDir, fileName + '.' + timestamp + '.bak')`. -/
def backupPathOf (env : FsEnv) (filePath : JStr) : JStr :=
  pathJoin (backupDirOf filePath)
    (basename filePath ++ '.' :: sanitizeTs env.nowIso ++ jchars ".bak")

/-- The `FixProvider.createBackup`: write the pre-fix content to the timestamped
backup path; any failure is caught inside (`console.warn`) and leaves the
filesystem unchanged — the fix still proceeds. -/
def createBackup (env : FsEnv) (fs : FS) (filePath content : JStr) : FS :=
  match fsWrite env fs (backupPathOf env filePath) content with
  | some fs' => fs'
  | none => fs

/-- The fix-log path `path.join('fix_logs', 'fix_' + Date.now() + '.json')`. -/
def logPathOf (env : FsEnv) : JStr :=
  pathJoin (jchars "fix_logs") (jchars "fix_" ++ natToJStr env.nowMs ++ jchars ".json")

/-- The fix-log entry.  The exact `JSON.stringify` text is abbreviated to a
plain rendering of the logged fields; no claim depends on it. -/
def renderFixLog (env : FsEnv) (issue : Issue) (before after : JStr) : JStr :=
  env.nowIso ++ '\n' :: jvalToStr issue.title ++ '\n' :: jvalToStr issue.file_path ++
    '\n' :: before ++ '\n' :: after

/-- The `FixProvider.logFix`: write the log entry; failures are caught inside
and ignored. -/
def logFix (env : FsEnv) (fs : FS) (issue : Issue) (before after : JStr) : FS :=
  match fsWrite env fs (logPathOf env) (renderFixLog env issue before after) with
  | some fs' => fs'
  | none => fs

/-- The `FixProvider.indentText`. -/
def indentText (t : JStr) : JStr :=
  joinNl ((splitNl t).map (fun l => jchars "    " ++ l))

/-- The `FixProvider.generatePatch`. -/
def generatePatch (filePath before after : JStr) : JStr :=
  jchars "--- " ++ basename filePath ++ jchars " (before)\n+++ " ++
    basename filePath ++ jchars " (after)\n@@\n" ++ indentText before ++
    jchars "\n@@\n" ++ indentText after

/-- JavaScript `s.includes(pat)`. -/
def hasSubstr (s pat : JStr) : Bool :=
  if pat.isPrefixOf s then true
  else
    match s with
    | [] => false
    | _ :: s' => hasSubstr s' pat

/-- The outcome record of `FixProvider.applyFix`. -/
structure FixResult where
  success : Bool
  reason : Option JStr
  patch : Option JStr
deriving DecidableEq

/-- The `FixProvider.applyFix`: guard for a fix and a path, check existence,
check that `before` occurs in the current content, back up, replace the
first occurrence, write, log.  A throwing main write is caught by the outer
handler and reported as a failure result; backup and log failures are
swallowed inside their own handlers. -/
def applyFix (env : FsEnv) (issue : Issue) (fs : FS) : FixResult × FS :=
  if !(truthy issue.fix) then
    ({ success := false, reason := some (jchars "No fix available for this issue"),
       patch := none }, fs)
  else if !(truthy issue.file_path) then
    ({ success := false, reason := some (jchars "No file path specified"),
       patch := none }, fs)
  else
    let filePath := jvalToStr issue.file_path
    match fs filePath with
    | none =>
      ({ success := false, reason := some (jchars "File not found"),
         patch := none }, fs)
    | some content =>
      let before := jvalToStr (jget issue.fix (jchars "before"))
      let after := jvalToStr (jget issue.fix (jchars "after"))
      if !(hasSubstr content before) then
        ({ success := false,
           reason := some (jchars
             "The code to be fixed was not found in the file. The file may have been modified."),
           patch := none }, fs)
      else
        let newContent := replaceFirst content before after
        let fs1 := createBackup env fs filePath content
        match fsWrite env fs1 filePath newContent with
        | none =>
          ({ success := false,
             reason := some (jchars "Error applying fix: " ++ env.errText),
             patch := none }, fs1)
        | some fs2 =>
          let fs3 := logFix env fs2 issue before after
          ({ success := true, reason := none,
             patch := some (generatePatch filePath before after) }, fs3)

/-- The `FixProvider.getAvailableFixes`:
`issues.filter(issue => issue.fix !== null && issue.fix !== undefined)`. -/
def getAvailableFixes (issues : List Issue) : List Issue :=
  issues.filter (fun i => !(isNullV i.fix) && !(isUndefV i.fix))

/-! ## Specification-side helpers and concrete inputs -/

/-- Index of the first occurrence of `pat` in `s`, if any
(specification-side helper, used to say where a matched text actually is). -/
def indexOfSub (s pat : JStr) : Option Nat :=
  if pat.isPrefixOf s then some 0
  else
    match s with
    | [] => none
    | _ :: s' => (indexOfSub s' pat).map (· + 1)

/-- The 1-based absolute line number of the first occurrence of `pat` in
`content` (newlines before the match index, plus one) — the line number the
specification says a finding should report. -/
def absoluteLineOf (content pat : JStr) : Option Nat :=
  (indexOfSub content pat).map (fun i => countNl (content.take i) + 1)

/-- The `line` fields of a list of issues, projected to integers. -/
def issueLineInts (l : List Issue) : List (Option Int) :=
  l.map (fun i => intVal i.line)

/-- A placeholder issue for `headD`. -/
def dummyIssue : Issue :=
  { title := .undefinedV, description := .undefinedV, severity := .undefinedV, file_path := .undefinedV,
    line := .undefinedV, suggestion := .undefinedV, fix := .undefinedV, vulnerability_type := .undefinedV }

/-- File path used by the concrete runs. -/
def fpApp : JStr := jchars "app.py"

/-- A chunk whose line 2 passes an f-string SQL query through
`cursor.execute` — the example call of the chunked claim. -/
def c6chunkCursor : JStr :=
  jchars "x = 1\ncursor.execute(f\"SELECT * FROM t WHERE id = \x7bx\x7d\")\ny = 2"

/-- The same snippet passed through a bare `execute(...)` call. -/
def c6chunkPlain : JStr :=
  jchars "x = 1\nexecute(f\"SELECT * FROM t WHERE id = \x7bx\x7d\")\ny = 2"

/-- A 42-line file whose last line matches the `hashlib.md5(` rule; with
`chunkMaxLines = 41` (and the hard-coded overlap 40) the match lands in the
second chunk, which starts at file line 2. -/
def file42 : JStr :=
  joinNl (List.replicate 41 (jchars "a") ++ [jchars "hashlib.md5(x)"])

/-- The numbered view of `file42`. -/
def c1numbered : JStr := addLineNumbers file42

/-- The two chunks of `file42` at `maxLines = 41`, `overlap = 40`. -/
def c1chunks : List JStr := (chunkByLines c1numbered 41 40).getD []

/-- The second chunk of `file42` (file lines 2–42). -/
def c1c : JStr := c1chunks.getD 1 []

/-- The single rule issue found in the second chunk of `file42`. -/
def c1issue : Issue := (analyzeWithRules fpApp c1c).headD dummyIssue

/-- A five-line text for the chunk-count witness. -/
def c2text : JStr := jchars "a\nb\nc\nd\ne"

/-- A model response with no JSON object in it. -/
def c5resp : JStr := jchars "I could not find any issues in this code."

/-- A model response whose single issue has `line: 0` (a falsy line). -/
def c7respZero : JStr := jchars "\x7b\"issues\": [\x7b\"line\": 0\x7d]\x7d"

/-- A model response whose single issue has only a truthy `line` (title and
severity missing). -/
def c7respDefaults : JStr := jchars "\x7b\"issues\": [\x7b\"line\": 3\x7d]\x7d"

/-- The issue `parseLLMResponse` produces from `c7respDefaults`. -/
def c7wIssue : Issue := (parseLLMResponse c7respDefaults fpApp).headD dummyIssue

/-- A model response carrying a fix. -/
def c10resp : JStr :=
  jchars
    "\x7b\"issues\": [\x7b\"title\": \"T\", \"fix\": \x7b\"before\": \"aa\", \"after\": \"bb\"\x7d\x7d]\x7d"

/-- The issue `parseLLMResponse` produces from `c10resp`. -/
def c10issue : Issue := (parseLLMResponse c10resp fpApp).headD dummyIssue

/-- A benign environment: no write fails. -/
def cEnv : FsEnv :=
  { writeFails := fun _ => false, nowIso := jchars "2026-10-11T00:00:00.000Z",
    nowMs := 5, errText := jchars "Error: EACCES" }

/-- An issue whose fix replaces `aa` by `bb` in `d/f.py`. -/
def cIssueFix : Issue :=
  { title := .str (jchars "T"), description := .str [], severity := .str (jchars "high"),
    file_path := .str (jchars "d/f.py"), line := .null, suggestion := .str [],
    fix := .obj [(jchars "before", .str (jchars "aa")), (jchars "after", .str (jchars "bb"))],
    vulnerability_type := .undefinedV }

/-- An issue whose fix's `before` text (`qq`) does not occur in the file. -/
def cIssueAbsent : Issue :=
  { cIssueFix with
    fix := .obj [(jchars "before", .str (jchars "qq")), (jchars "after", .str (jchars "bb"))] }

/-- A filesystem with one file, `d/f.py`, whose content contains `aa`
twice. -/
def cFs : FS :=
  fun p => if p = jchars "d/f.py" then some (jchars "xx aa yy aa zz") else none

/-- An environment in which only the backup path fails to write. -/
def cEnvBackupFail : FsEnv :=
  { cEnv with writeFails := fun p => p = backupPathOf cEnv (jchars "d/f.py") }

/-- An environment in which the target file itself fails to write. -/
def cEnvMainFail : FsEnv :=
  { cEnv with writeFails := fun p => p = jchars "d/f.py" }

/-! # Theorems -/

theorem splitOnChar_length_pos (sep : Char) (s : JStr) :
    0 < (splitOnChar sep s).length := by
  induction s with
  | nil => simp [splitOnChar]
  | cons c rest ih =>
    simp only [splitOnChar]
    split
    · simp
    · cases h : splitOnChar sep rest with
      | nil => rw [h] at ih; simp at ih
      | cons x xs => simp

theorem chunkLoop_isSome (lines : List JStr) (M O : Nat) (hMO : O < M) :
    ∀ fuel start, lines.length - start ≤ fuel →
      (chunkLoop lines M O fuel start).isSome = true := by
  intro fuel
  induction fuel with
  | zero =>
    intro start h
    simp only [chunkLoop]
    rw [if_pos (by omega)]
    rfl
  | succ fuel ih =>
    intro start h
    simp only [chunkLoop]
    by_cases hs : lines.length ≤ start
    · rw [if_pos hs]; rfl
    · rw [if_neg hs]
      by_cases he : min (start + M) lines.length = lines.length
      · simp only [if_pos he]; rfl
      · simp only [if_neg he]
        have hlt : start + M < lines.length := by omega
        have hcall := ih (min (start + M) lines.length - O) (by omega)
        cases hc : chunkLoop lines M O fuel (min (start + M) lines.length - O) with
        | none => rw [hc] at hcall; simp at hcall
        | some l => rfl

/-- The first-digit-place arithmetic step behind the chunk-count formula:
peeling one window of net advance `D` off a remaining overhang `a ≥ 1`. -/
theorem ceil_step (a D : Nat) (hD : 0 < D) (ha : 1 ≤ a) :
    (a + D - 1) / D = (a - D + D - 1) / D + 1 := by
  rcases le_or_lt D a with hc | hc
  · have h1 : a + D - 1 = (a - D + D - 1) + D := by omega
    rw [h1, Nat.add_div_right _ hD]
  · have h1 : a - D = 0 := by omega
    have h2 : (0 + D - 1) / D = 0 := Nat.div_eq_of_lt (by omega)
    rw [h1, h2]
    exact Nat.div_eq_of_lt_le (by omega) (by omega)

theorem chunkLoop_length (lines : List JStr) (M O : Nat) (hMO : O < M) :
    ∀ fuel start l, start < lines.length →
      chunkLoop lines M O fuel start = some l →
      l.length = (lines.length - start - M + (M - O) - 1) / (M - O) + 1 := by
  intro fuel
  induction fuel with
  | zero =>
    intro start l hstart hc
    simp only [chunkLoop] at hc
    rw [if_neg (by omega)] at hc
    exact absurd hc (by simp)
  | succ fuel ih =>
    intro start l hstart hc
    simp only [chunkLoop] at hc
    rw [if_neg (by omega)] at hc
    by_cases he : min (start + M) lines.length = lines.length
    · rw [if_pos he] at hc
      have hl : l = [joinNl ((lines.drop start).take
          (min (start + M) lines.length - start))] := (Option.some.inj hc).symm
      have hnm : lines.length - start - M = 0 := by omega
      have hz : (0 + (M - O) - 1) / (M - O) = 0 := Nat.div_eq_of_lt (by omega)
      rw [hl, hnm]
      simp only [List.length_singleton]
      omega
    · rw [if_neg he] at hc
      have hlt : start + M < lines.length := by omega
      cases hrec : chunkLoop lines M O fuel (min (start + M) lines.length - O) with
      | none => rw [hrec] at hc; exact absurd hc (by simp)
      | some l' =>
        rw [hrec] at hc
        simp only [Option.map_some'] at hc
        have hl : l = joinNl ((lines.drop start).take
            (min (start + M) lines.length - start)) :: l' := (Option.some.inj hc).symm
        have hstart' : min (start + M) lines.length - O < lines.length := by omega
        have hlen' := ih (min (start + M) lines.length - O) l' hstart' hrec
        rw [hl]
        simp only [List.length_cons]
        have hmin : min (start + M) lines.length = start + M := by omega
        rw [hmin] at hlen'
        have ha : 1 ≤ lines.length - start - M := by omega
        have hD : 0 < M - O := by omega
        have hrw : lines.length - (start + M - O) - M =
            lines.length - start - M - (M - O) := by omega
        rw [hrw] at hlen'
        have hcs := ceil_step (lines.length - start - M) (M - O) hD ha
        omega

/-- C9: under the precondition `overlap_lines < max_lines` (with
`max_lines ≥ 1`), `chunkByLines` terminates for every input text: the
windowing loop, run with fuel equal to the number of lines, completes
(every iteration advances the window start by `maxLines - overlapLines ≥ 1`
until the window reaches the end of the line sequence), so the fuelled
model never returns `none`. -/
theorem c9_chunking_terminates (text : JStr) (M O : Nat) (_hM : 0 < M)
    (hMO : O < M) : (chunkByLines text M O).isSome = true := by
  show (chunkLoop (splitNl text) M O (splitNl text).length 0).isSome = true
  exact chunkLoop_isSome (splitNl text) M O hMO (splitNl text).length 0 (by omega)

theorem c9_chunking_terminates_witness :
    (chunkByLines c2text 2 1).isSome = true :=
  c9_chunking_terminates c2text 2 1 (by omega) (by omega)

/-- C2: for a text of `N` lines chunked with `max_lines = M` and
`overlap_lines = O` (`O < M`), `chunkByLines` returns one chunk when
`N ≤ M`, and `(N - O + (M - O) - 1) / (M - O)` chunks — the natural-number
encoding of `⌈(N - O) / (M - O)⌉` — when `N > M`. -/
theorem c2_chunk_count (text : JStr) (M O : Nat) (hMO : O < M) :
    (chunkByLines text M O).map List.length =
      some (if (splitNl text).length ≤ M then 1
        else ((splitNl text).length - O + (M - O) - 1) / (M - O)) := by
  have hsome := chunkLoop_isSome (splitNl text) M O hMO (splitNl text).length 0
    (by omega)
  show (chunkLoop (splitNl text) M O (splitNl text).length 0).map List.length = _
  cases hc : chunkLoop (splitNl text) M O (splitNl text).length 0 with
  | none => rw [hc] at hsome; simp at hsome
  | some l =>
    have hpos : 0 < (splitNl text).length := splitOnChar_length_pos _ _
    have hlen := chunkLoop_length (splitNl text) M O hMO _ 0 l hpos hc
    simp only [Option.map_some', Option.some.injEq, hlen]
    by_cases hN : (splitNl text).length ≤ M
    · rw [if_pos hN]
      have h0 : (splitNl text).length - 0 - M = 0 := by omega
      rw [h0]
      have : (0 + (M - O) - 1) / (M - O) = 0 := Nat.div_eq_of_lt (by omega)
      omega
    · rw [if_neg hN]
      have ha : 1 ≤ (splitNl text).length - 0 - M := by omega
      have hD : 0 < M - O := by omega
      have hsum : (splitNl text).length - O + (M - O) - 1 =
          ((splitNl text).length - 0 - M + (M - O) - 1) + (M - O) := by omega
      rw [hsum, Nat.add_div_right _ hD]

theorem c2_chunk_count_witness :
    (chunkByLines c2text 2 1).map List.length = some 4 :=
  (c2_chunk_count c2text 2 1 (by omega)).trans (by decide)

/-- C6 (counterexample): the snippet
`f"SELECT * FROM t WHERE id = {x}"` passed through the claim's example
query-execution call `cursor.execute` yields TWO `sql_injection` issues,
not exactly one: both the `execute.*f["'].*\{.*\}` and the
`cursor\.execute.*f["'].*\{.*\}` patterns match the same line, and the rule
engine does not suppress overlapping matches. -/
theorem c6_cex :
    ((analyzeWithRules fpApp c6chunkCursor).filter
        (fun i => strVal i.vulnerability_type == some (jchars "sql_injection"))).length
      = 2 := by decide

/-- C6 (amended): the snippet passed through a bare `execute(...)` call
yields exactly one `sql_injection` issue of severity `high` at the snippet
line (line 2 of the chunk, where the call text sits); when the call is
written `cursor.execute(...)` the engine emits exactly two such issues
(both `sql_injection`, severity `high`, at the correct line), because two
catalogue patterns match. -/
theorem c6_amended :
    (analyzeWithRules fpApp c6chunkPlain).map
        (fun i => (strVal i.vulnerability_type, strVal i.severity, intVal i.line)) =
      [(some (jchars "sql_injection"), some (jchars "high"), some 2)] ∧
    (analyzeWithRules fpApp c6chunkCursor).map
        (fun i => (strVal i.vulnerability_type, strVal i.severity, intVal i.line)) =
      [(some (jchars "sql_injection"), some (jchars "high"), some 2),
        (some (jchars "sql_injection"), some (jchars "high"), some 2)] ∧
    absoluteLineOf c6chunkPlain (jchars "execute") = some 2 ∧
    absoluteLineOf c6chunkCursor (jchars "cursor.execute") = some 2 :=
  ⟨by decide, by decide, by decide, by decide⟩

/-- C1 (counterexample): scanning the 42-line file `file42` with
`chunkMaxLines = 41` (overlap is the hard-coded 40) produces exactly one
rule issue, whose reported line is 41 — but the matched text
`hashlib.md5(` sits on absolute line 42 of the file.  The match lands in
the second chunk (file lines 2–42) and `analyzeWithRules` counts newlines
within the chunk, so the reported number is chunk-relative, not the
absolute file line the claim requires. -/
theorem c1_cex :
    (scanFileRuleIssues fpApp file42 41).map issueLineInts = some [some 41] ∧
    absoluteLineOf file42 (jchars "hashlib.md5(") = some 42 :=
  ⟨by decide, by decide⟩



theorem countNl_take_le (s : JStr) (idx : Nat) : countNl (s.take idx) ≤ countNl s :=
  List.Sublist.countP_le _ (List.take_sublist idx s)

theorem splitOnChar_length_eq (sep : Char) (s : JStr) :
    (splitOnChar sep s).length = s.countP (fun c => c == sep) + 1 := by
  induction s with
  | nil => simp [splitOnChar]
  | cons c rest ih =>
    simp only [splitOnChar, List.countP_cons]
    by_cases hc : c = sep
    · rw [if_pos hc]
      simp [List.length_cons, ih, hc]
    · rw [if_neg hc]
      cases h : splitOnChar sep rest with
      | nil =>
        have hpos := splitOnChar_length_pos sep rest
        rw [h] at hpos
        simp at hpos
      | cons x xs =>
        rw [h] at ih
        have hb : (c == sep) = false := by simp [hc]
        simp only [List.length_cons, hb, Bool.false_eq_true, if_false] at ih ⊢
        omega

theorem splitOnChar_not_mem (sep : Char) (s : JStr) :
    ∀ p ∈ splitOnChar sep s, sep ∉ p := by
  induction s with
  | nil =>
    intro p hp
    simp [splitOnChar] at hp
    simp [hp]
  | cons c rest ih =>
    intro p hp
    simp only [splitOnChar] at hp
    by_cases hc : c = sep
    · rw [if_pos hc] at hp
      rcases List.mem_cons.mp hp with h | h
      · simp [h]
      · exact ih p h
    · rw [if_neg hc] at hp
      cases h : splitOnChar sep rest with
      | nil =>
        have hpos := splitOnChar_length_pos sep rest
        rw [h] at hpos
        simp at hpos
      | cons x xs =>
        rw [h] at hp
        rcases List.mem_cons.mp hp with h1 | h1
        · subst h1
          intro hmem
          rcases List.mem_cons.mp hmem with h2 | h2
          · exact hc h2.symm
          · exact ih x (h ▸ List.mem_cons_self x xs) h2
        · exact ih p (h ▸ List.mem_cons_of_mem x h1)

theorem splitOnChar_of_not_mem (sep : Char) (p : JStr) (hp : sep ∉ p) :
    splitOnChar sep p = [p] := by
  induction p with
  | nil => rfl
  | cons c rest ih =>
    have hc : c ≠ sep := fun h => hp (h ▸ List.mem_cons_self c rest)
    have hrest : sep ∉ rest := fun h => hp (List.mem_cons_of_mem c h)
    simp only [splitOnChar, if_neg hc, ih hrest]

theorem splitOnChar_append_sep (sep : Char) (p rest : JStr) (hp : sep ∉ p) :
    splitOnChar sep (p ++ sep :: rest) = p :: splitOnChar sep rest := by
  induction p with
  | nil => simp [splitOnChar]
  | cons c p' ih =>
    have hc : c ≠ sep := fun h => hp (h ▸ List.mem_cons_self c p')
    have hp' : sep ∉ p' := fun h => hp (List.mem_cons_of_mem c h)
    simp only [List.cons_append, splitOnChar, if_neg hc]
    rw [show p'.append (sep :: rest) = p' ++ sep :: rest from rfl, ih hp']

theorem joinFold_append (sep : Char) (rest : List JStr) :
    ∀ a b : JStr, rest.foldl (fun acc q => acc ++ sep :: q) (a ++ b) =
      a ++ rest.foldl (fun acc q => acc ++ sep :: q) b := by
  induction rest with
  | nil => intro a b; rfl
  | cons q rest ih =>
    intro a b
    simp only [List.foldl_cons]
    rw [List.append_assoc a b (sep :: q)] at *
    exact ih a (b ++ sep :: q)

theorem joinWith_cons (sep : Char) (p : JStr) (parts : List JStr)
    (hne : parts ≠ []) :
    joinWith sep (p :: parts) = p ++ sep :: joinWith sep parts := by
  cases parts with
  | nil => exact absurd rfl hne
  | cons q rest =>
    show (q :: rest).foldl (fun acc r => acc ++ sep :: r) p = _
    simp only [List.foldl_cons]
    have h1 : p ++ sep :: q = (p ++ [sep]) ++ q := by simp
    rw [h1, joinFold_append sep rest (p ++ [sep]) q]
    simp [joinWith]

theorem splitOnChar_joinWith (sep : Char) :
    ∀ parts : List JStr, (∀ p ∈ parts, sep ∉ p) → parts ≠ [] →
      splitOnChar sep (joinWith sep parts) = parts := by
  intro parts
  induction parts with
  | nil => intro _ h; exact absurd rfl h
  | cons p rest ih =>
    intro hfree _
    cases rest with
    | nil =>
      show splitOnChar sep (joinWith sep [p]) = [p]
      have hj : joinWith sep [p] = p := rfl
      rw [hj]
      exact splitOnChar_of_not_mem sep p (hfree p (List.mem_cons_self p []))
    | cons q rest' =>
      rw [joinWith_cons sep p (q :: rest') (by simp)]
      rw [splitOnChar_append_sep sep p _ (hfree p (List.mem_cons_self p (q :: rest')))]
      rw [ih (fun x hx => hfree x (List.mem_cons_of_mem p hx)) (by simp)]

theorem analyzeWithRules_line_shape (fp c : JStr) (i : Issue)
    (hi : i ∈ analyzeWithRules fp c) :
    ∃ idx : Nat, i.line = .num ((countNl (c.take idx) + 1 : Nat) : Int) := by
  unfold analyzeWithRules at hi
  simp only [List.mem_flatMap, List.mem_map] at hi
  obtain ⟨vp, _, pat, _, idx, _, rfl⟩ := hi
  exact ⟨idx, rfl⟩

theorem chunkLoop_getElem (lines : List JStr) (M O : Nat) (hMO : O ≤ M) :
    ∀ fuel start l, chunkLoop lines M O fuel start = some l →
      ∀ j c, l[j]? = some c →
        start + j * (M - O) < lines.length ∧
        c = joinNl ((lines.drop (start + j * (M - O))).take
          (min (start + j * (M - O) + M) lines.length - (start + j * (M - O)))) := by
  intro fuel
  induction fuel with
  | zero =>
    intro start l hc j c hj
    simp only [chunkLoop] at hc
    by_cases hs : lines.length ≤ start
    · rw [if_pos hs] at hc
      rw [← Option.some.inj hc] at hj
      simp at hj
    · rw [if_neg hs] at hc
      exact absurd hc (by simp)
  | succ fuel ih =>
    intro start l hc j c hj
    simp only [chunkLoop] at hc
    by_cases hs : lines.length ≤ start
    · rw [if_pos hs] at hc
      rw [← Option.some.inj hc] at hj
      simp at hj
    · rw [if_neg hs] at hc
      by_cases he : min (start + M) lines.length = lines.length
      · rw [if_pos he] at hc
        rw [← Option.some.inj hc] at hj
        cases j with
        | zero =>
          simp only [List.getElem?_cons_zero] at hj
          refine ⟨by omega, ?_⟩
          rw [← Option.some.inj hj]
          simp [Nat.zero_mul]
        | succ j' =>
          rw [List.getElem?_cons_succ] at hj
          simp at hj
      · rw [if_neg he] at hc
        cases hrec : chunkLoop lines M O fuel (min (start + M) lines.length - O) with
        | none => rw [hrec] at hc; exact absurd hc (by simp)
        | some l' =>
          rw [hrec] at hc
          simp only [Option.map_some'] at hc
          rw [← Option.some.inj hc] at hj
          cases j with
          | zero =>
            simp only [List.getElem?_cons_zero] at hj
            refine ⟨by omega, ?_⟩
            rw [← Option.some.inj hj]
            simp [Nat.zero_mul]
          | succ j' =>
            rw [List.getElem?_cons_succ] at hj
            have hlt : start + M < lines.length := by omega
            have hres := ih (min (start + M) lines.length - O) l' hrec j' c hj
            have hkey : min (start + M) lines.length - O + j' * (M - O) =
                start + (j' + 1) * (M - O) := by
              have h1 : (j' + 1) * (M - O) = j' * (M - O) + (M - O) :=
                Nat.succ_mul j' (M - O)
              omega
            rw [hkey] at hres
            exact hres

/-- C1 (amended): for every scanned file, every chunking width `M > 40`
(the hard-coded overlap is 40) and every chunk, each issue the rule engine
emits on that chunk reports the 1-based line number of the matched text
*relative to the chunk*: the reported line `ln` satisfies
`1 ≤ ln ≤ (number of lines of the chunk)`, and the chunk's `ln`-th line is
the numbered file's line `k * (M - 40) + ln` (where `k` is the chunk
index).  For the first chunk (`k = 0`) this is the absolute file line; for
later chunks the reported number is smaller than the absolute line by the
chunk's start offset `k * (M - 40)`. -/
theorem c1_amended (content : JStr) (M : Nat) (hM : 40 < M)
    (cs : List JStr) (hcs : chunkByLines (addLineNumbers content) M 40 = some cs)
    (k : Nat) (c : JStr) (hkc : cs[k]? = some c)
    (fp : JStr) (i : Issue) (hi : i ∈ analyzeWithRules fp c) :
    ∃ ln : Nat, i.line = .num ((ln : Nat) : Int) ∧ 1 ≤ ln ∧
      ln ≤ (splitNl c).length ∧
      (splitNl c)[ln - 1]? =
        (splitNl (addLineNumbers content))[k * (M - 40) + (ln - 1)]? := by
  have hcs' : chunkLoop (splitNl (addLineNumbers content)) M 40
      (splitNl (addLineNumbers content)).length 0 = some cs := hcs
  have hstruct := chunkLoop_getElem (splitNl (addLineNumbers content)) M 40
    (by omega) _ 0 cs hcs' k c hkc
  set lines := splitNl (addLineNumbers content) with hlines
  obtain ⟨hsk, hceq⟩ := hstruct
  rw [Nat.zero_add] at hsk hceq
  set sk := k * (M - 40) with hskEq
  set tk := min (sk + M) lines.length - sk with htkEq
  set parts := (lines.drop sk).take tk with hpartsEq
  have hfree : ∀ p ∈ parts, '\n' ∉ p := by
    intro p hp
    exact splitOnChar_not_mem '\n' (addLineNumbers content) p
      (List.mem_of_mem_drop (List.mem_of_mem_take hp))
  have hplen : parts.length = tk := by
    rw [hpartsEq, List.length_take, List.length_drop]
    omega
  have htkpos : 1 ≤ tk := by omega
  have hne : parts ≠ [] := List.ne_nil_of_length_pos (by omega)
  have hsplit : splitNl c = parts := by
    rw [hceq]
    exact splitOnChar_joinWith '\n' parts hfree hne
  obtain ⟨idx, hline⟩ := analyzeWithRules_line_shape fp c i hi
  refine ⟨countNl (c.take idx) + 1, hline, by omega, ?_, ?_⟩
  · rw [hsplit, hplen]
    have h1 : (splitNl c).length = countNl c + 1 := splitOnChar_length_eq '\n' c
    rw [hsplit, hplen] at h1
    have h2 := countNl_take_le c idx
    omega
  · have hlt : countNl (c.take idx) + 1 - 1 < tk := by
      have h1 : (splitNl c).length = countNl c + 1 := splitOnChar_length_eq '\n' c
      rw [hsplit, hplen] at h1
      have h2 := countNl_take_le c idx
      omega
    rw [hsplit]
    rw [hpartsEq]
    rw [List.getElem?_take, if_pos hlt, List.getElem?_drop]

theorem isPrefixOf_false_not_append (pat s t : JStr) (h : pat.isPrefixOf s = false) :
    s ≠ pat ++ t := by
  intro hs
  have : pat.isPrefixOf s = true := by
    rw [ List.isPrefixOf_iff_prefix]
    exact ⟨t, hs.symm⟩
  rw [this] at h
  exact Bool.true_eq_false.mp h

theorem replaceFirst_spec (rep : JStr) :
    ∀ s pat : JStr, hasSubstr s pat = true →
      ∃ p q, s = p ++ pat ++ q ∧
        (∀ p' q', s = p' ++ pat ++ q' → p.length ≤ p'.length) ∧
        replaceFirst s pat rep = p ++ rep ++ q := by
  intro s
  induction s with
  | nil =>
    intro pat hsub
    simp only [hasSubstr] at hsub
    split at hsub
    · next hpre =>
      have hp : pat <+: [] := List.isPrefixOf_iff_prefix.mp hpre
      have hpat : pat = [] := List.prefix_nil.mp hp
      refine ⟨[], [], by simp [hpat], fun p' q' _ => by simp, ?_⟩
      simp only [replaceFirst, hpre, if_true]
      simp [hpat]
    · exact absurd hsub (by simp)
  | cons ch s' ih =>
    intro pat hsub
    by_cases hpre : pat.isPrefixOf (ch :: s') = true
    · have hp : ∃ t, pat ++ t = ch :: s' := List.isPrefixOf_iff_prefix.mp hpre
      obtain ⟨t, ht⟩ := hp
      refine ⟨[], t, by simp [ht.symm], fun p' q' _ => by simp, ?_⟩
      simp only [replaceFirst, hpre, if_true, List.nil_append]
      have hdrop : (ch :: s').drop pat.length = t := by
        rw [← ht, List.drop_left]
      rw [hdrop]
    · have hpre' : pat.isPrefixOf (ch :: s') = false := by
        cases hx : pat.isPrefixOf (ch :: s') with
        | true => exact absurd hx hpre
        | false => rfl
      have hsub' : hasSubstr s' pat = true := by
        simp only [hasSubstr, hpre', if_false] at hsub
        exact hsub
      obtain ⟨p, q, hs', hmin, hrep⟩ := ih pat hsub'
      refine ⟨ch :: p, q, by simp [hs'], ?_, ?_⟩
      · intro p' q' heq
        cases p' with
        | nil =>
          simp only [List.nil_append] at heq
          exact absurd heq (isPrefixOf_false_not_append pat (ch :: s') q' hpre')
        | cons c2 p3 =>
          simp only [List.cons_append, List.cons.injEq] at heq
          have := hmin p3 q' heq.2
          simp only [List.length_cons]
          omega
      · simp only [replaceFirst, hpre', Bool.false_eq_true, if_false,
          List.cons_append, hrep]

theorem jget_before (b a : JStr) :
    jvalToStr (jget (.obj [(jchars "before", .str b), (jchars "after", .str a)])
      (jchars "before")) = b := rfl

theorem jget_after (b a : JStr) :
    jvalToStr (jget (.obj [(jchars "before", .str b), (jchars "after", .str a)])
      (jchars "after")) = a := rfl

/-- C3: if the fix's `before` text is not a substring of the current file
content, `applyFix` fails with the file-may-have-been-modified reason and
performs no write at all: the filesystem is returned unchanged. -/
theorem c3_fix_not_applicable (env : FsEnv) (issue : Issue) (fs : FS)
    (b a fpath content : JStr)
    (hfix : issue.fix = .obj [(jchars "before", .str b), (jchars "after", .str a)])
    (hfp : issue.file_path = .str fpath) (hfpne : fpath ≠ [])
    (hread : fs fpath = some content)
    (habsent : hasSubstr content b = false) :
    (applyFix env issue fs).1.success = false ∧
    (applyFix env issue fs).1.reason = some (jchars
      "The code to be fixed was not found in the file. The file may have been modified.") ∧
    (applyFix env issue fs).2 = fs := by
  have hT : truthy issue.fix = true := by rw [hfix]; rfl
  have hP : truthy issue.file_path = true := by
    rw [hfp]
    simp [truthy, hfpne]
  have hfps : jvalToStr issue.file_path = fpath := by rw [hfp]; rfl
  unfold applyFix
  rw [hT, hP]
  simp only [Bool.not_true, Bool.false_eq_true, if_false, hfps, hread]
  rw [hfix, jget_before b a, habsent]
  simp

/-- C4: for an issue whose `before` text occurs in the file (possibly more
than once), `applyFix` succeeds, writes the content with only the *first*
occurrence of `before` replaced by `after` (the suffix after that first
occurrence — including any later occurrences — is unchanged), and a
timestamped backup holding the pre-fix content exists at the backup path
after the call. -/
theorem c4_first_occurrence_backup (env : FsEnv) (issue : Issue) (fs : FS)
    (b a fpath content : JStr)
    (hfix : issue.fix = .obj [(jchars "before", .str b), (jchars "after", .str a)])
    (hfp : issue.file_path = .str fpath) (hfpne : fpath ≠ [])
    (hread : fs fpath = some content)
    (hpresent : hasSubstr content b = true)
    (hwmain : env.writeFails fpath = false)
    (hwback : env.writeFails (backupPathOf env fpath) = false)
    (hne1 : backupPathOf env fpath ≠ fpath)
    (hne2 : logPathOf env ≠ fpath)
    (hne3 : logPathOf env ≠ backupPathOf env fpath) :
    (applyFix env issue fs).1.success = true ∧
    (applyFix env issue fs).2 fpath = some (replaceFirst content b a) ∧
    (applyFix env issue fs).2 (backupPathOf env fpath) = some content ∧
    ∃ p q, content = p ++ b ++ q ∧
      (∀ p' q', content = p' ++ b ++ q' → p.length ≤ p'.length) ∧
      replaceFirst content b a = p ++ a ++ q := by
  have hT : truthy issue.fix = true := by rw [hfix]; rfl
  have hP : truthy issue.file_path = true := by rw [hfp]; simp [truthy, hfpne]
  have hfps : jvalToStr issue.file_path = fpath := by rw [hfp]; rfl
  unfold applyFix
  rw [hT, hP]
  simp only [Bool.not_true, Bool.false_eq_true, if_false, hfps, hread]
  rw [hfix, jget_before b a, jget_after b a, hpresent]
  simp only [Bool.not_true, Bool.false_eq_true, if_false, createBackup, fsWrite,
    hwback, hwmain, if_false, logFix]
  by_cases hlog : env.writeFails (logPathOf env) = true <;>
    simp only [hlog, Bool.false_eq_true, if_true, if_false] <;>
    exact ⟨by simp,
      by simp [hne1, hne2, hne3, Ne.symm hne1, Ne.symm hne2, Ne.symm hne3],
      by simp [hne1, hne2, hne3, Ne.symm hne1, Ne.symm hne2, Ne.symm hne3],
      replaceFirst_spec a content b hpresent⟩

/-- C8 (amended): `applyFix` always returns a structured result (the model
is a total function): every failure outcome carries a reason string, and a
throwing main `writeFileSync` in particular is caught and reported as a
failure result with the error-rendering reason.  Backup and log write
failures, however, are caught inside `createBackup`/`logFix` and only
warned about — they do not produce a failure result (see the
counterexample for the original claim). -/
theorem c8_amended :
    (∀ (env : FsEnv) (issue : Issue) (fs : FS),
      (applyFix env issue fs).1.success = false →
        ((applyFix env issue fs).1.reason).isSome = true) ∧
    (∀ (env : FsEnv) (issue : Issue) (fs : FS) (b a fpath content : JStr),
      issue.fix = .obj [(jchars "before", .str b), (jchars "after", .str a)] →
      issue.file_path = .str fpath → fpath ≠ [] →
      fs fpath = some content → hasSubstr content b = true →
      env.writeFails fpath = true →
      (applyFix env issue fs).1.success = false ∧
      (applyFix env issue fs).1.reason =
        some (jchars "Error applying fix: " ++ env.errText)) := by
  constructor
  · intro env issue fs
    unfold applyFix
    dsimp only
    split
    · intro _; rfl
    · split
      · intro _; rfl
      · split
        · intro _; rfl
        · split
          · intro _; rfl
          · split
            · intro _; rfl
            · intro hfalse; simp at hfalse
  · intro env issue fs b a fpath content hfix hfp hfpne hread hpresent hwmain
    have hT : truthy issue.fix = true := by rw [hfix]; rfl
    have hP : truthy issue.file_path = true := by rw [hfp]; simp [truthy, hfpne]
    have hfps : jvalToStr issue.file_path = fpath := by rw [hfp]; rfl
    unfold applyFix
    rw [hT, hP]
    simp only [Bool.not_true, Bool.false_eq_true, if_false, hfps, hread]
    rw [hfix, jget_before b a, jget_after b a, hpresent]
    simp only [Bool.not_true, Bool.false_eq_true, if_false, fsWrite, hwmain, if_true]
    simp

theorem jor_of_truthy (x d : JVal) (h : truthy x = true) : jor x d = x := by
  simp [jor, h]

theorem jor_of_falsy (x d : JVal) (h : truthy x = false) : jor x d = d := by
  simp [jor, h]

theorem isUndefV_eq_false_iff (x : JVal) : isUndefV x = false ↔ x ≠ .undefinedV := by
  cases x <;> simp [isUndefV]

theorem isNullV_eq_false_iff (x : JVal) : isNullV x = false ↔ x ≠ .null := by
  cases x <;> simp [isNullV]

/-- C5: every failure mode of the model-response parsing path — no
`{...}`-shaped span in the response, a span `JSON.parse` rejects, or parsed
data lacking the `issues` key — yields the empty issue list.  (The model of
`parseLLMResponse` is a total function, which is the embedding of "this
call never raises to the caller".) -/
theorem c5_parse_failures_empty (response fp : JStr)
    (h : extractJson response = none ∨
      (∃ js, extractJson response = some js ∧ jparse js = none) ∨
      (∃ js d, extractJson response = some js ∧ jparse js = some d ∧
        jget d (jchars "issues") = .undefinedV)) :
    parseLLMResponse response fp = [] := by
  unfold parseLLMResponse
  rcases h with h | ⟨js, hjs, hparse⟩ | ⟨js, d, hjs, hparse, hget⟩
  · rw [h]
  · rw [hjs]
    dsimp only
    rw [hparse]
  · rw [hjs]
    dsimp only
    rw [hparse]
    dsimp only
    rw [hget]
    rfl

theorem c5_parse_failures_empty_witness :
    parseLLMResponse c5resp fpApp = [] :=
  c5_parse_failures_empty c5resp fpApp (Or.inl (by decide))

theorem normIssue_spec (fp : JStr) (v : JVal) (i : Issue)
    (h : normIssue fp v = some i) :
    i.file_path = .str fp ∧
    (jget v (jchars "title") = .undefinedV → i.title = .str (jchars "Security Issue")) ∧
    (jget v (jchars "severity") = .undefinedV → i.severity = .str (jchars "medium")) ∧
    (truthy (jget v (jchars "line")) = true → i.line = jget v (jchars "line")) ∧
    (truthy (jget v (jchars "line")) = false → i.line = .null) := by
  unfold normIssue at h
  by_cases hb : (isNullV v || isUndefV v) = true
  · rw [if_pos hb] at h
    exact absurd h (by simp)
  · rw [if_neg hb] at h
    have hrec := Option.some.inj h
    subst hrec
    refine ⟨rfl, ?_, ?_, ?_, ?_⟩
    · intro ht
      show jor (jget v (jchars "title")) (.str (jchars "Security Issue")) = _
      rw [ht]
      rfl
    · intro hs
      show jor (jget v (jchars "severity")) (.str (jchars "medium")) = _
      rw [hs]
      rfl
    · intro hl
      exact jor_of_truthy _ _ hl
    · intro hl
      exact jor_of_falsy _ _ hl

theorem normList_mem (fp : JStr) :
    ∀ (vs : List JVal) (l : List Issue), normList fp vs = some l →
      ∀ i ∈ l, ∃ v ∈ vs, normIssue fp v = some i := by
  intro vs
  induction vs with
  | nil =>
    intro l hl i hi
    simp only [normList] at hl
    rw [← Option.some.inj hl] at hi
    simp at hi
  | cons v vs ih =>
    intro l hl i hi
    simp only [normList] at hl
    cases hv : normIssue fp v with
    | none => rw [hv] at hl; exact absurd hl (by simp)
    | some iv =>
      rw [hv] at hl
      cases hrest : normList fp vs with
      | none => rw [hrest] at hl; exact absurd hl (by simp)
      | some lrest =>
        rw [hrest] at hl
        rw [← Option.some.inj hl] at hi
        rcases List.mem_cons.mp hi with hh | hh
        · exact ⟨v, List.mem_cons_self _ _, hh ▸ hv⟩
        · obtain ⟨w, hw, hwi⟩ := ih lrest hrest i hh
          exact ⟨w, List.mem_cons_of_mem _ hw, hwi⟩

/-- C7 (amended): every issue parsed from a model response has `file_path`
overwritten with the scanned file's path, and arises from an element `v` of
the response's `issues` array such that: a missing `title` defaults to
`"Security Issue"`, a missing `severity` defaults to `"medium"`, a *truthy*
`line` value is passed through unmodified, and a *falsy* `line` value
(absent, `null`, or the number `0`) is normalized to `null`. -/
theorem c7_amended (response fp : JStr) (i : Issue)
    (hi : i ∈ parseLLMResponse response fp) :
    i.file_path = .str fp ∧
    ∃ js d xs v, extractJson response = some js ∧ jparse js = some d ∧
      jget d (jchars "issues") = .arr xs ∧ v ∈ xs ∧ normIssue fp v = some i ∧
      (jget v (jchars "title") = .undefinedV → i.title = .str (jchars "Security Issue")) ∧
      (jget v (jchars "severity") = .undefinedV → i.severity = .str (jchars "medium")) ∧
      (truthy (jget v (jchars "line")) = true → i.line = jget v (jchars "line")) ∧
      (truthy (jget v (jchars "line")) = false → i.line = .null) := by
  unfold parseLLMResponse at hi
  cases hjs : extractJson response with
  | none => rw [hjs] at hi; simp at hi
  | some js =>
    rw [hjs] at hi
    dsimp only at hi
    cases hd : jparse js with
    | none => rw [hd] at hi; simp at hi
    | some d =>
      rw [hd] at hi
      dsimp only at hi
      by_cases ht : truthy (jget d (jchars "issues")) = true
      · rw [jor_of_truthy _ _ ht] at hi
        cases hgi : jget d (jchars "issues") with
        | arr xs =>
          rw [hgi] at hi
          dsimp only at hi
          cases hnl : normList fp xs with
          | none => rw [hnl] at hi; simp at hi
          | some l =>
            rw [hnl] at hi
            simp only [Option.getD_some] at hi
            obtain ⟨v, hv, hni⟩ := normList_mem fp xs l hnl i hi
            obtain ⟨h1, h2, h3, h4, h5⟩ := normIssue_spec fp v i hni
            exact ⟨h1, js, d, xs, v, rfl, hd, hgi, hv, hni, h2, h3, h4, h5⟩
        | undefinedV => rw [hgi] at ht; simp [truthy] at ht
        | null => rw [hgi] at ht; simp [truthy] at ht
        | bool bb => rw [hgi] at hi; simp at hi
        | num n => rw [hgi] at hi; simp at hi
        | str s => rw [hgi] at hi; simp at hi
        | obj fields => rw [hgi] at hi; simp at hi
      · have ht' : truthy (jget d (jchars "issues")) = false := by
          revert ht
          cases truthy (jget d (jchars "issues")) <;> simp
        rw [jor_of_falsy _ _ ht'] at hi
        simp [normList] at hi

theorem c7_amended_witness : c7wIssue.file_path = .str fpApp := by
  have h : parseLLMResponse c7respDefaults fpApp = [c7wIssue] := rfl
  exact (c7_amended c7respDefaults fpApp c7wIssue
    (by rw [h]; exact List.mem_singleton_self _)).1

/-- C7 (counterexample): a model response whose single issue object carries
`"line": 0` — a present, non-null line value — is *not* passed through
unmodified: the emitted issue's `line` is `null` (the `issue.line || null`
normalization maps every falsy value, including the number `0`, to
`null`). -/
theorem c7_cex :
    extractJson c7respZero = some c7respZero ∧
    jparse c7respZero = some (.obj [(jchars "issues",
      .arr [.obj [(jchars "line", .num 0)]])]) ∧
    jget (.obj [(jchars "line", .num 0)]) (jchars "line") = .num 0 ∧
    (parseLLMResponse c7respZero fpApp).map
      (fun i => (isNullV i.line, isUndefV i.line, intVal i.line)) =
      [(true, false, none)] :=
  ⟨rfl, rfl, rfl, by decide⟩

theorem analyzeWithRules_fix_undefinedV (fp c : JStr) (i : Issue)
    (hi : i ∈ analyzeWithRules fp c) : i.fix = .undefinedV := by
  unfold analyzeWithRules at hi
  simp only [List.mem_flatMap, List.mem_map] at hi
  obtain ⟨vp, _, pat, _, idx, _, rfl⟩ := hi
  rfl

/-- C10: rule-engine issues never carry a `fix` (the field stays
`undefined`), so every issue `getAvailableFixes` keeps from a scan's
aggregated rule+LLM issue list has a non-null, non-undefined `fix` and
comes from the model-output parsing path of some chunk's response —
rule-based findings can never be applied by the fix provider. -/
theorem c10_only_llm_fixable (fp : JStr) (chunks : List JStr)
    (responses : List (Option JStr)) (i : Issue)
    (hi : i ∈ getAvailableFixes (scanFileIssues fp chunks responses)) :
    i.fix ≠ .undefinedV ∧ i.fix ≠ .null ∧
    ∃ r, some r ∈ responses ∧ i ∈ parseLLMResponse r fp := by
  unfold getAvailableFixes at hi
  rw [List.mem_filter] at hi
  obtain ⟨hmem, hpred⟩ := hi
  have hnn : isNullV i.fix = false ∧ isUndefV i.fix = false := by
    revert hpred
    cases isNullV i.fix <;> cases isUndefV i.fix <;> simp
  refine ⟨(isUndefV_eq_false_iff i.fix).mp hnn.2, (isNullV_eq_false_iff i.fix).mp hnn.1, ?_⟩
  unfold scanFileIssues at hmem
  rw [List.mem_flatMap] at hmem
  obtain ⟨cr, hcr, hmem2⟩ := hmem
  rcases List.mem_append.mp hmem2 with h | h
  · have hfix := analyzeWithRules_fix_undefinedV fp cr.1 i h
    rw [hfix] at hnn
    simp [isUndefV] at hnn
  · unfold analyzeWithLLM at h
    cases hr : cr.2 with
    | none => rw [hr] at h; simp at h
    | some r =>
      rw [hr] at h
      dsimp only at h
      have hsnd := (List.of_mem_zip
        (show (cr.1, cr.2) ∈ chunks.zip responses from hcr)).2
      rw [hr] at hsnd
      exact ⟨r, hsnd, h⟩

theorem c10_only_llm_fixable_witness :
    ∃ r, some r ∈ [some c10resp] ∧ c10issue ∈ parseLLMResponse r fpApp := by
  have h : getAvailableFixes
      (scanFileIssues fpApp [jchars "hashlib.md5(x)"] [some c10resp]) = [c10issue] := rfl
  exact (c10_only_llm_fixable fpApp [jchars "hashlib.md5(x)"] [some c10resp] c10issue
    (by rw [h]; exact List.mem_singleton_self _)).2.2

theorem listHeadD_mem {α : Type} (l : List α) (d : α) (h : l.isEmpty = false) :
    l.headD d ∈ l := by
  cases l with
  | nil => simp at h
  | cons x xs => exact List.mem_cons_self x xs

theorem c1_amended_witness :
    ∃ ln : Nat, c1issue.line = .num ((ln : Nat) : Int) ∧ 1 ≤ ln ∧
      ln ≤ (splitNl c1c).length ∧
      (splitNl c1c)[ln - 1]? =
        (splitNl (addLineNumbers file42))[1 * (41 - 40) + (ln - 1)]? :=
  c1_amended file42 41 (by omega) c1chunks (by decide) 1 c1c (by decide) fpApp
    c1issue (listHeadD_mem _ _ (by decide))

theorem c3_fix_not_applicable_witness :
    (applyFix cEnv cIssueAbsent cFs).1.success = false ∧
    (applyFix cEnv cIssueAbsent cFs).1.reason = some (jchars
      "The code to be fixed was not found in the file. The file may have been modified.") ∧
    (applyFix cEnv cIssueAbsent cFs).2 = cFs :=
  c3_fix_not_applicable cEnv cIssueAbsent cFs (jchars "qq") (jchars "bb")
    (jchars "d/f.py") (jchars "xx aa yy aa zz") rfl rfl (by decide) rfl (by decide)

theorem c4_first_occurrence_backup_witness :
    (applyFix cEnv cIssueFix cFs).1.success = true ∧
    (applyFix cEnv cIssueFix cFs).2 (jchars "d/f.py") =
      some (replaceFirst (jchars "xx aa yy aa zz") (jchars "aa") (jchars "bb")) ∧
    (applyFix cEnv cIssueFix cFs).2 (backupPathOf cEnv (jchars "d/f.py")) =
      some (jchars "xx aa yy aa zz") := by
  have h := c4_first_occurrence_backup cEnv cIssueFix cFs (jchars "aa") (jchars "bb")
    (jchars "d/f.py") (jchars "xx aa yy aa zz") rfl rfl (by decide) rfl (by decide)
    (by decide) (by decide) (by decide) (by decide) (by decide)
  exact ⟨h.1, h.2.1, h.2.2.1⟩

/-- C8 (counterexample): in an environment where writing the backup path
throws, `applyFix` on a valid fix still returns `success = true` with no
reason — the backup (filesystem) failure is swallowed by `createBackup`'s
own handler and is *not* reported as a structured failure result, and no
backup file exists afterwards. -/
theorem c8_cex :
    cEnvBackupFail.writeFails (backupPathOf cEnvBackupFail (jchars "d/f.py")) = true ∧
    ((applyFix cEnvBackupFail cIssueFix cFs).2
      (backupPathOf cEnvBackupFail (jchars "d/f.py"))).isNone = true ∧
    (applyFix cEnvBackupFail cIssueFix cFs).1.success = true ∧
    (applyFix cEnvBackupFail cIssueFix cFs).1.reason = none :=
  ⟨by decide, by decide, by decide, by decide⟩

theorem c8_amended_witness :
    (applyFix cEnvMainFail cIssueFix cFs).1.success = false ∧
    (applyFix cEnvMainFail cIssueFix cFs).1.reason =
      some (jchars "Error applying fix: " ++ cEnvMainFail.errText) :=
  c8_amended.2 cEnvMainFail cIssueFix cFs (jchars "aa") (jchars "bb")
    (jchars "d/f.py") (jchars "xx aa yy aa zz") rfl rfl (by decide) rfl
    (by decide) (by decide)

end Datenschutz
